import Mathlib

/-!
Verification of the gpud retention-bounded event store
(`pkg/eventstore/database.go`) and the metrics syncer`s `sync` step.

The embedding models one bucket table as a list of physical rows (the
engine state), and the SQL statements of `database.go` as pure functions
over that list.  JSON (`json.Marshal` / `json.Unmarshal`) is an external
library from the store`s point of view, so the serializer for extra-info
and the two deserializers are parameters of the operations, exactly where
the Go code calls out to `encoding/json`.  `SuggestedActions` is opaque to
the store beyond exact serialized comparison, so its structured form is
represented by an abstract `String` value.
-/

namespace Gpud

/-- Physical row of a bucket table, columns as declared by `createTable`:
`timestamp INTEGER NOT NULL`, `name TEXT NOT NULL`, `type TEXT NOT NULL`,
and three nullable TEXT columns (`message`, `extra_info`,
`suggested_actions`); a nullable TEXT column is an `Option String`. -/
structure Row where
  timestamp : Int
  name : String
  typ : String
  message : Option String
  extraInfo : Option String
  suggestedActions : Option String
deriving DecidableEq, Repr

/-- The decoded event (`apiv1.Event`): `time` is the Unix-seconds value,
`extraInfo` is the `map[string]string` payload as an association list
(absent map is `none`), `suggestedActions` is the opaque structured
payload (absent is `none`). -/
structure Event where
  time : Int
  name : String
  typ : String
  message : String
  extraInfo : Option (List (String × String))
  suggestedActions : Option String
deriving DecidableEq, Repr

/-- Errors produced by the store, by constructor rather than by formatted
text: `invalidJSON` is the codec`s "invalid JSON: %q" error,
`parseFail` carries a `json.Unmarshal` failure, and `wrapUnmarshal` is the
"failed to unmarshal <field>: %w" wrapping done in `scanRows`. -/
inductive DbErr where
  | invalidJSON (raw : String)
  | parseFail (msg : String)
  | wrapUnmarshal (field : String) (inner : DbErr)
deriving DecidableEq, Repr

/-- Go`s `strings.HasPrefix(s, "\x7b")`: with a one-character ASCII
pattern this is exactly "the first character is a left brace". -/
def startsWithBrace (s : String) : Bool :=
  match s.data with
  | [] => false
  | c :: _ => c == '\x7b'

/-- Codec decode step (`unmarshalIfValid`): SQL NULL, the empty string and
the literal string "null" decode to absent; a non-empty value not starting
with a left brace is an "invalid JSON" error; otherwise the value is
handed to the JSON parser and a parse failure is surfaced. -/
def unmarshalIfValid {α : Type} (parse : String → Except String α)
    (data : Option String) : Except DbErr (Option α) :=
  match data with
  | none => .ok none
  | some s =>
    if s.length = 0 || s = "null" then .ok none
    else if ! startsWithBrace s then .error (.invalidJSON s)
    else
      match parse s with
      | .ok v => .ok (some v)
      | .error m => .error (.parseFail m)

/-- Row decoding (`scanRows` / `scanRow`): a NULL `message` scans to the
empty string; `extra_info` and `suggested_actions` go through
`unmarshalIfValid`, whose errors are wrapped as
"failed to unmarshal extra info" / "failed to unmarshal suggested actions"
(extra info is decoded first, as in the source). -/
def scanRowsOne (pEI : String → Except String (List (String × String)))
    (pSA : String → Except String String) (r : Row) : Except DbErr Event :=
  match unmarshalIfValid pEI r.extraInfo with
  | .error e => .error (.wrapUnmarshal "extra info" e)
  | .ok ei =>
    match unmarshalIfValid pSA r.suggestedActions with
    | .error e => .error (.wrapUnmarshal "suggested actions" e)
    | .ok sa =>
      .ok { time := r.timestamp, name := r.name, typ := r.typ,
            message := r.message.getD "", extraInfo := ei,
            suggestedActions := sa }

/-- Lookup of a key in the association-list rendering of a Go
`map[string]string` (`B[key]` in `compareEvent`). -/
def lookupKey (l : List (String × String)) (k : String) : Option String :=
  match l.find? (fun p => p.1 == k) with
  | some p => some p.2
  | none => none

/-- Dedup comparison (`compareEvent`): the extra-info maps have the same
number of keys and every key of the first exists in the second with an
identical value.  A `nil` Go map and an empty one both have length 0. -/
def compareEvent (eventA eventB : Event) : Bool :=
  let la := eventA.extraInfo.getD []
  let lb := eventB.extraInfo.getD []
  la.length == lb.length &&
    la.all (fun p => lookupKey lb p.1 == some p.2)

/-- SQL predicate built by `findEvent`: `timestamp = ? AND name = ? AND
type = ?`, plus `message = ?` only when the probe`s message is non-empty,
plus `suggested_actions = ?` (against the probe`s serialized form `mSA`)
only when the probe`s suggested actions are non-nil.  A NULL column never
satisfies an equality predicate. -/
def sqlMatch (mSA : String → String) (ev : Event) (r : Row) : Bool :=
  r.timestamp == ev.time && r.name == ev.name && r.typ == ev.typ &&
    (ev.message == "" || r.message == some ev.message) &&
    (match ev.suggestedActions with
     | none => true
     | some sa => r.suggestedActions == some (mSA sa))

/-- Dedup lookup (`findEvent`): the engine serves the rows satisfying the
SQL predicate in scan order; each candidate is decoded by `scanRows`
(a decode failure aborts the call) and tested with `compareEvent`; the
first row passing the post-filter is returned, and `ok none` ("nil, nil")
is returned when the scan is exhausted. -/
def findEvent (pEI : String → Except String (List (String × String)))
    (pSA : String → Except String String) (mSA : String → String)
    (ev : Event) : List Row → Except DbErr (Option Event)
  | [] => .ok none
  | r :: rest =>
    if sqlMatch mSA ev r then
      match scanRowsOne pEI pSA r with
      | .error e => .error e
      | .ok stored =>
        if compareEvent stored ev then .ok (some stored)
        else findEvent pEI pSA mSA ev rest
    else findEvent pEI pSA mSA ev rest

/-- Descending-timestamp order used by `ORDER BY timestamp DESC`. -/
def rowGE (a b : Row) : Prop := b.timestamp ≤ a.timestamp

instance : DecidableRel rowGE := fun a b =>
  inferInstanceAs (Decidable (b.timestamp ≤ a.timestamp))

instance : IsTotal Row rowGE := ⟨fun a b => le_total b.timestamp a.timestamp⟩

instance : IsTrans Row rowGE := ⟨fun _ _ _ h1 h2 => le_trans h2 h1⟩

/-- Engine realization of `ORDER BY timestamp DESC` on the matched rows
(ties are served in an engine-chosen order; this model uses a stable
sort). -/
def sortRowsDesc (rows : List Row) : List Row := List.insertionSort rowGE rows

/-- Sequential `rows.Next()` decoding loop shared by `getEvents`: every
row is decoded in order and the first failure aborts the whole call. -/
def scanAll (pEI : String → Except String (List (String × String)))
    (pSA : String → Except String String) :
    List Row → Except DbErr (List Event)
  | [] => .ok []
  | r :: rest =>
    match scanRowsOne pEI pSA r with
    | .error e => .error e
    | .ok ev =>
      match scanAll pEI pSA rest with
      | .error e => .error e
      | .ok evs => .ok (ev :: evs)

/-- Range query (`getEvents`): `WHERE timestamp > ? ORDER BY timestamp
DESC`, decode every served row (a failure aborts), and return `none`
("nil") instead of an empty collection. -/
def getEvents (pEI : String → Except String (List (String × String)))
    (pSA : String → Except String String) (rows : List Row) (since : Int) :
    Except DbErr (Option (List Event)) :=
  match scanAll pEI pSA
      (sortRowsDesc (rows.filter (fun r => decide (since < r.timestamp)))) with
  | .error e => .error e
  | .ok evs => if evs.isEmpty then .ok none else .ok (some evs)

/-- Retention deletion (`purgeEvents`): `DELETE FROM t WHERE timestamp <
?` returns the number of affected rows together with the surviving
table state. -/
def purgeEvents (rows : List Row) (beforeTimestamp : Int) : Nat × List Row :=
  ((rows.filter (fun r => decide (r.timestamp < beforeTimestamp))).length,
   rows.filter (fun r => ! decide (r.timestamp < beforeTimestamp)))

/-- NULLIF(?, ''): the write boundary stores SQL NULL for an empty
string. -/
def nullifEmpty (s : String) : Option String :=
  if s = "" then none else some s

/-- Event insertion (`insertEvent`): `extra_info` is the JSON rendering
`mEI` of the map when present (a `nil` map serializes to the empty byte
slice, hence the empty string), `suggested_actions` likewise, and all
three nullable columns pass through NULLIF(?, ''). -/
def insertEvent (mEI : List (String × String) → String)
    (mSA : String → String) (ev : Event) : Row :=
  { timestamp := ev.time,
    name := ev.name,
    typ := ev.typ,
    message := nullifEmpty ev.message,
    extraInfo := nullifEmpty (match ev.extraInfo with
      | none => ""
      | some l => mEI l),
    suggestedActions := nullifEmpty (match ev.suggestedActions with
      | none => ""
      | some sa => mSA sa) }

/-- One Go `time.Second` in nanoseconds (`time.Duration` is a signed
64-bit count of nanoseconds). -/
def second : Int := 1000000000

/-- Shared state of the `database` store: the retention field that every
`Bucket` call reads (and, with purge disabled, writes). -/
structure DbState where
  retention : Int
deriving DecidableEq, Repr

/-- The per-bucket fields of `table` that the factory resolves:
the physical table name, the retention and purge interval passed to
`newTable`, and whether `newTable` started the background purge
goroutine (`retention > time.Second`). -/
structure TableHandle where
  table : String
  retention : Int
  purgeInterval : Int
  purgeStarted : Bool
deriving DecidableEq, Repr

/-- Single left-to-right pass of Go`s `strings.ReplaceAll(c, "__", "_")`:
after a match the scan resumes past the replaced pair. -/
def collapseUnderscores : List Char → List Char
  | '_' :: '_' :: rest => '_' :: collapseUnderscores rest
  | c :: rest => c :: collapseUnderscores rest
  | [] => []

/-- Physical table-name derivation (`defaultTableName`): spaces and
hyphens become underscores, double underscores are collapsed in one
pass, the result is lowercased and wrapped as
`components_<name>_events_v0_4_0`. -/
def defaultTableName (componentName : String) : String :=
  let c := componentName.toList.map
    (fun ch => if ch = ' ' || ch = '-' then '_' else ch)
  let c := (collapseUnderscores c).map Char.toLower
  "components_" ++ String.mk c ++ "_events_v0_4_0"

/-- Table construction (`newTable`): derives the physical name and starts
the purge goroutine exactly when `retention > time.Second`. -/
def newTable (name : String) (retention purgeInterval : Int) : TableHandle :=
  { table := defaultTableName name,
    retention := retention,
    purgeInterval := purgeInterval,
    purgeStarted := decide (second < retention) }

/-- Factory method `database.Bucket`: computes `purgeInterval :=
d.retention / 5` (Go integer division truncates toward zero) floored at
one second, and — when the caller disables purge — sets the shared
`d.retention` field to 0 and the interval to 0 before delegating to
`newTable`.  Returns the handle together with the store state after the
call. -/
def databaseBucket (d : DbState) (name : String) (disablePurge : Bool) :
    TableHandle × DbState :=
  let pi0 := Int.tdiv d.retention 5
  let pi1 := if pi0 < second then second else pi0
  if disablePurge then
    (newTable name 0 0, { retention := 0 })
  else
    (newTable name d.retention pi1, d)

/-- Factory method `database.LoadBucketWithNoPurge`: retention and purge
interval are unconditionally 0 and the shared state is untouched. -/
def loadBucketWithNoPurge (d : DbState) (name : String) :
    TableHandle × DbState :=
  (newTable name 0 0, d)

/-- One call recorded by the syncer against its collaborators. -/
inductive SyncCall (α : Type) where
  | scrape
  | record (ms : List α)
deriving DecidableEq, Repr

/-- Whether a recorded syncer call is a scrape. -/
def SyncCall.isScrape {α : Type} : SyncCall α → Bool
  | .scrape => true
  | .record _ => false

/-- Modelled from the spec: the Syncer`s `sync()` step
(`pkg/metrics/syncer`, whose implementation file is not part of the
sources here; only its test is).  Per the spec, `sync` scrapes once; on a
scrape error it returns that error unmodified without touching the store;
on success it records all scraped metrics in one `Record` call and
returns that call`s error unmodified.  The scraper`s behavior is its
result, the store`s behavior is a function from the recorded batch to an
optional error, and the second component traces the collaborator calls
made, in order. -/
def sync {α : Type} (scrapeResult : Except String (List α))
    (recordResult : List α → Option String) :
    Option String × List (SyncCall α) :=
  match scrapeResult with
  | .error e => (some e, [SyncCall.scrape])
  | .ok ms => (recordResult ms, [SyncCall.scrape, SyncCall.record ms])

/-! Concrete collaborators used to instantiate the theorems: a JSON
parser that rejects everything (never consulted on NULL columns) and a
sample row/event pair. -/

/-- JSON parser for extra-info that fails on every input. -/
def parseFailEI : String → Except String (List (String × String)) :=
  fun s => .error s

/-- JSON parser for suggested-actions that fails on every input. -/
def parseFailSA : String → Except String String := fun s => .error s

/-- Sample stored row with NULL payload columns. -/
def rowW : Row := ⟨5, "n", "T", none, none, none⟩

/-- Decoded form of `rowW`. -/
def eventW : Event := ⟨5, "n", "T", "", none, none⟩

/-- A successful `scanRows` decode copies the timestamp, name and type,
and renders a NULL message as the empty string. -/
theorem scanRowsOne_ok_fields {pEI : String → Except String (List (String × String))}
    {pSA : String → Except String String} {r : Row} {e : Event}
    (h : scanRowsOne pEI pSA r = .ok e) :
    e.time = r.timestamp ∧ e.name = r.name ∧ e.typ = r.typ ∧
      e.message = r.message.getD "" := by
  unfold scanRowsOne at h
  split at h
  · exact Except.noConfusion h
  · split at h
    · exact Except.noConfusion h
    · cases h
      exact ⟨rfl, rfl, rfl, rfl⟩

/-- Every error produced by a `scanRows` decode is one of the two
"failed to unmarshal" wrappings. -/
theorem scanRowsOne_error_shape {pEI : String → Except String (List (String × String))}
    {pSA : String → Except String String} {r : Row} {err : DbErr}
    (h : scanRowsOne pEI pSA r = .error err) :
    ∃ field inner, err = DbErr.wrapUnmarshal field inner := by
  unfold scanRowsOne at h
  split at h
  · cases h
    exact ⟨_, _, rfl⟩
  · split at h
    · cases h
      exact ⟨_, _, rfl⟩
    · exact Except.noConfusion h

/-- C5: `Purge` deletes exactly the rows strictly older than the cutoff
(rows at the cutoff survive), returns the number of removed rows, is a
no-op returning 0 on an empty bucket, and a repeated purge with the same
cutoff removes 0 rows and leaves the state unchanged. -/
theorem purgeEvents_spec (rows : List Row) (beforeTimestamp : Int) :
    (purgeEvents rows beforeTimestamp).2
        = rows.filter (fun r => decide (beforeTimestamp ≤ r.timestamp)) ∧
    (purgeEvents rows beforeTimestamp).1
        = (rows.filter (fun r => decide (r.timestamp < beforeTimestamp))).length ∧
    purgeEvents ([] : List Row) beforeTimestamp = (0, []) ∧
    purgeEvents (purgeEvents rows beforeTimestamp).2 beforeTimestamp
        = (0, (purgeEvents rows beforeTimestamp).2) := by
  refine ⟨?_, rfl, rfl, ?_⟩
  · unfold purgeEvents
    refine List.filter_congr ?_
    intro a _
    simp [← decide_not, not_le]
  · unfold purgeEvents
    simp only [List.filter_filter]
    rw [Prod.mk.injEq]
    constructor
    · rw [List.length_eq_zero]
      apply List.filter_eq_nil_iff.mpr
      intro a _
      simp
    · refine List.filter_congr ?_
      intro a _
      simp

/-- C10: the physical table-name derivation is not injective — a space
and a hyphen collide, as do names differing only in letter case — and
buckets requested under such distinct logical names get the same
physical table. -/
theorem defaultTableName_not_injective :
    defaultTableName "a b" = defaultTableName "a-b" ∧
    defaultTableName "GPU" = defaultTableName "gpu" ∧
    defaultTableName "a_b" = defaultTableName "a b" ∧
    ("a b" : String) ≠ "a-b" ∧ ("GPU" : String) ≠ "gpu" ∧
    (databaseBucket ⟨0⟩ "a b" false).1.table
      = (databaseBucket ⟨0⟩ "a-b" false).1.table :=
  ⟨rfl, rfl, rfl, by decide, by decide, rfl⟩

/-- C6 (failing input): with a 10-second retention, requesting one bucket
with purge disabled zeroes the shared retention field, so a bucket
subsequently created from the same store receives retention 0 and no
purge loop, whereas without the disabled bucket it would have received
the 10-second retention and a running loop. -/
theorem databaseBucket_disable_mutates_shared_state :
    (databaseBucket ⟨10 * second⟩ "b" false).1.retention = 10 * second ∧
    (databaseBucket ⟨10 * second⟩ "b" false).1.purgeStarted = true ∧
    (databaseBucket ⟨10 * second⟩ "a" true).2.retention = 0 ∧
    (databaseBucket (databaseBucket ⟨10 * second⟩ "a" true).2 "b" false).1.retention = 0 ∧
    (databaseBucket (databaseBucket ⟨10 * second⟩ "a" true).2 "b" false).1.purgeStarted
      = false :=
  ⟨rfl, by decide, rfl, rfl, by decide⟩

/-- C7: a bucket created through `database.Bucket` starts no background
purge task when the retention is at most one second, and otherwise starts
one whose interval is one fifth of the retention floored at one
second. -/
theorem databaseBucket_purge_schedule (r : Int) (name : String) :
    ((databaseBucket ⟨r⟩ name false).1.purgeStarted = false ↔ r ≤ second) ∧
    (second < r →
      (databaseBucket ⟨r⟩ name false).1.purgeStarted = true ∧
      (databaseBucket ⟨r⟩ name false).1.purgeInterval
        = max (Int.tdiv r 5) second) := by
  constructor
  · simp [databaseBucket, newTable, not_lt]
  · intro h
    constructor
    · simp [databaseBucket, newTable, h]
    · show (if Int.tdiv r 5 < second then second else Int.tdiv r 5)
        = max (Int.tdiv r 5) second
      rcases lt_or_le (Int.tdiv r 5) second with hlt | hge
      · rw [if_pos hlt, max_eq_right hlt.le]
      · rw [if_neg (not_lt.mpr hge), max_eq_left hge]

/-- C7 witness at a 10-second retention. -/
theorem databaseBucket_purge_schedule_witness :
    (databaseBucket ⟨10 * second⟩ "x" false).1.purgeStarted = true ∧
    (databaseBucket ⟨10 * second⟩ "x" false).1.purgeInterval
      = max (Int.tdiv (10 * second) 5) second :=
  (databaseBucket_purge_schedule (10 * second) "x").2 (by decide)

/-- C8: one `sync()` call scrapes exactly once; a scrape error is
returned unmodified with no store call; on success all scraped metrics
are recorded in one `Record` call whose error, if any, is returned
unmodified. -/
theorem sync_spec {α : Type} (scrapeResult : Except String (List α))
    (recordResult : List α → Option String) :
    ((sync scrapeResult recordResult).2.filter SyncCall.isScrape).length = 1 ∧
    (∀ e, scrapeResult = .error e →
      sync scrapeResult recordResult = (some e, [SyncCall.scrape])) ∧
    (∀ ms, scrapeResult = .ok ms →
      (sync scrapeResult recordResult).2
          = [SyncCall.scrape, SyncCall.record ms] ∧
      (sync scrapeResult recordResult).1 = recordResult ms) := by
  cases scrapeResult <;>
    simp [sync, SyncCall.isScrape, List.filter]

/-- C8 witness: a failing scraper`s error comes back unmodified with no
record call. -/
theorem sync_spec_witness :
    sync (.error "scrape error")
        (fun _ : List Nat => (none : Option String))
      = (some "scrape error", [SyncCall.scrape]) :=
  (sync_spec (.error "scrape error") (fun _ => none)).2.1 "scrape error" rfl

/-- The extra-info key/value pairs an event carries for dedup purposes
(`nil` map and empty map both have no pairs). -/
def eiList (ev : Event) : List (String × String) := ev.extraInfo.getD []

/-- A successful `lookupKey` result is a pair of the list. -/
theorem lookupKey_some_mem {l : List (String × String)} {k v : String}
    (h : lookupKey l k = some v) : (k, v) ∈ l := by
  unfold lookupKey at h
  split at h
  next p hp =>
    cases h
    have hmem := List.mem_of_find?_eq_some hp
    have hk : p.1 = k := by simpa using List.find?_some hp
    rw [← hk]
    simpa using hmem
  next => exact Option.noConfusion h

/-- Under distinct keys, a stored pair is found by `lookupKey`. -/
theorem lookupKey_eq_some_of_mem {l : List (String × String)} {k v : String}
    (hnd : (l.map Prod.fst).Nodup) (hm : (k, v) ∈ l) :
    lookupKey l k = some v := by
  have hsome : (l.find? (fun p => p.1 == k)).isSome :=
    List.find?_isSome.mpr ⟨(k, v), hm, by simp⟩
  obtain ⟨p, hp⟩ := Option.isSome_iff_exists.mp hsome
  have hmem := List.mem_of_find?_eq_some hp
  have hk : p.1 = k := by simpa using List.find?_some hp
  have hpe : p = (k, v) :=
    List.inj_on_of_nodup_map hnd hmem hm (by simp [hk])
  unfold lookupKey
  rw [hp, hpe]

/-- Unfolding of the Boolean `compareEvent` into its two clauses. -/
theorem compareEvent_eq_true_iff (a b : Event) :
    compareEvent a b = true ↔
      ((eiList a).length = (eiList b).length ∧
        ∀ p ∈ eiList a, lookupKey (eiList b) p.1 = some p.2) := by
  unfold compareEvent eiList
  rw [Bool.and_eq_true, beq_iff_eq, List.all_eq_true]
  apply and_congr_right
  intro _
  apply forall_congr'
  intro p
  apply imp_congr_right
  intro _
  rw [beq_iff_eq]

/-- The clause pair of `compareEvent` is symmetric when both extra-info
maps have distinct keys. -/
theorem compareEvent_symm (a b : Event)
    (ha : ((eiList a).map Prod.fst).Nodup)
    (hb : ((eiList b).map Prod.fst).Nodup) :
    compareEvent a b = compareEvent b a := by
  have main : ∀ x y : Event, ((eiList x).map Prod.fst).Nodup →
      ((eiList y).map Prod.fst).Nodup →
      compareEvent x y = true → compareEvent y x = true := by
    intro x y hx hy hxy
    rw [compareEvent_eq_true_iff] at hxy ⊢
    obtain ⟨hlen, hmemx⟩ := hxy
    have hsub : (eiList x).map Prod.fst ⊆ (eiList y).map Prod.fst := by
      intro k hk
      obtain ⟨p, hp, rfl⟩ := List.mem_map.mp hk
      exact List.mem_map.mpr
        ⟨(p.1, p.2), lookupKey_some_mem (hmemx p hp), rfl⟩
    have hperm : List.Perm ((eiList x).map Prod.fst) ((eiList y).map Prod.fst) :=
      (List.Nodup.subperm hx hsub).perm_of_length_le (by simp [hlen])
    refine ⟨hlen.symm, ?_⟩
    intro q hq
    have hkx : q.1 ∈ (eiList x).map Prod.fst :=
      hperm.mem_iff.mpr (List.mem_map.mpr ⟨q, hq, rfl⟩)
    obtain ⟨p, hp, hpk⟩ := List.mem_map.mp hkx
    have hlook : lookupKey (eiList y) p.1 = some p.2 := hmemx p hp
    have hpy : (p.1, p.2) ∈ eiList y := lookupKey_some_mem hlook
    have hqp : q = (p.1, p.2) :=
      List.inj_on_of_nodup_map hy hq hpy (by simp [hpk])
    rw [hqp]
    exact lookupKey_eq_some_of_mem hx (by simpa using hp)
  cases h : compareEvent a b with
  | true => exact (main a b ha hb h).symm
  | false =>
    cases h2 : compareEvent b a with
    | false => rfl
    | true => exact absurd (main b a hb ha h2) (by simp [h])

/-- C2: `compareEvent` holds exactly when the two extra-info maps have
the same number of keys and every key of the first appears in the second
with the same value; the relation is symmetric; an event with no
extra-info keys matches only events with no extra-info keys; and the two
concrete probes of the spec do not match. -/
theorem compareEvent_spec (a b : Event)
    (ha : ((eiList a).map Prod.fst).Nodup)
    (hb : ((eiList b).map Prod.fst).Nodup) :
    (compareEvent a b = true ↔
      ((eiList a).length = (eiList b).length ∧
        ∀ p ∈ eiList a, lookupKey (eiList b) p.1 = some p.2)) ∧
    compareEvent a b = compareEvent b a ∧
    (eiList a = [] → (compareEvent a b = true ↔ eiList b = [])) ∧
    compareEvent ⟨0, "", "", "", some [("a", "b")], none⟩
      ⟨0, "", "", "", none, none⟩ = false ∧
    compareEvent ⟨0, "", "", "", some [("a", "b")], none⟩
      ⟨0, "", "", "", some [("a", "b"), ("c", "d")], none⟩ = false := by
  refine ⟨compareEvent_eq_true_iff a b, compareEvent_symm a b ha hb, ?_, rfl, rfl⟩
  intro hnil
  rw [compareEvent_eq_true_iff]
  constructor
  · intro ⟨hlen, _⟩
    rw [hnil] at hlen
    exact List.length_eq_zero.mp hlen.symm
  · intro hbnil
    simp [hnil, hbnil]

/-- C2 witness: the symmetry clause at two concrete one-key events. -/
theorem compareEvent_spec_witness :
    compareEvent ⟨1, "n", "T", "", some [("a", "b")], none⟩
        ⟨1, "n", "T", "", some [("a", "x")], none⟩
      = compareEvent ⟨1, "n", "T", "", some [("a", "x")], none⟩
        ⟨1, "n", "T", "", some [("a", "b")], none⟩ :=
  (compareEvent_spec ⟨1, "n", "T", "", some [("a", "b")], none⟩
    ⟨1, "n", "T", "", some [("a", "x")], none⟩
    (by decide) (by decide)).2.1

/-- A Go string has byte length 0 exactly when it is the empty string. -/
theorem string_length_zero_iff (s : String) : s.length = 0 ↔ s = "" := by
  constructor
  · intro h
    apply String.ext
    have hd : s.data.length = 0 := by
      rw [String.length_data]
      exact h
    simpa using List.length_eq_zero.mp hd
  · rintro rfl
    rfl

/-- C9: an empty `Message` is normalized to SQL NULL by the NULLIF write
boundary, a scanned NULL message decodes to the empty string, and the
`Message` field round-trips through insert-then-decode for every
event. -/
theorem insertEvent_message_roundtrip
    (mEI : List (String × String) → String) (mSA : String → String)
    (pEI : String → Except String (List (String × String)))
    (pSA : String → Except String String) (ev : Event) :
    (ev.message = "" → (insertEvent mEI mSA ev).message = none) ∧
    (insertEvent mEI mSA ev).message.getD "" = ev.message ∧
    (∀ r : Row, ∀ e, scanRowsOne pEI pSA r = .ok e →
      e.message = r.message.getD "") ∧
    (∀ e, scanRowsOne pEI pSA (insertEvent mEI mSA ev) = .ok e →
      e.message = ev.message) := by
  have h3 : ∀ r : Row, ∀ e, scanRowsOne pEI pSA r = .ok e →
      e.message = r.message.getD "" :=
    fun _ _ h => (scanRowsOne_ok_fields h).2.2.2
  refine ⟨?_, ?_, h3, ?_⟩
  · intro h
    simp [insertEvent, nullifEmpty, h]
  · unfold insertEvent nullifEmpty
    by_cases h : ev.message = "" <;> simp [h]
  · intro e he
    rw [h3 _ e he]
    unfold insertEvent nullifEmpty
    by_cases h : ev.message = "" <;> simp [h]

/-- C9 witness: a concrete event with an empty message is stored with a
NULL message column and decodes back to the empty message. -/
theorem insertEvent_message_roundtrip_witness :
    (insertEvent (fun _ => "") id eventW).message = none ∧
    (insertEvent (fun _ => "") id eventW).message.getD "" = eventW.message :=
  ⟨(insertEvent_message_roundtrip (fun _ => "") id parseFailEI parseFailSA
      eventW).1 rfl,
   (insertEvent_message_roundtrip (fun _ => "") id parseFailEI parseFailSA
      eventW).2.1⟩

/-- A failing decode of a head row aborts the scan loop with that
error. -/
theorem scanAll_cons_error
    {pEI : String → Except String (List (String × String))}
    {pSA : String → Except String String} {a : Row} {rest : List Row}
    {e : DbErr} (h : scanRowsOne pEI pSA a = .error e) :
    scanAll pEI pSA (a :: rest) = .error e := by
  simp [scanAll, h]

/-- With a decodable head row, the scan loop forwards any failure of the
remaining rows. -/
theorem scanAll_cons_ok_error
    {pEI : String → Except String (List (String × String))}
    {pSA : String → Except String String} {a : Row} {rest : List Row}
    {ev : Event} {e : DbErr} (h1 : scanRowsOne pEI pSA a = .ok ev)
    (h2 : scanAll pEI pSA rest = .error e) :
    scanAll pEI pSA (a :: rest) = .error e := by
  simp [scanAll, h1, h2]

/-- If any row of the scanned list fails to decode, the whole scan fails
with the decode error of some row of the list. -/
theorem scanAll_error_of_mem
    (pEI : String → Except String (List (String × String)))
    (pSA : String → Except String String) :
    ∀ l : List Row, (∃ r ∈ l, ∃ e0, scanRowsOne pEI pSA r = .error e0) →
    ∃ err, scanAll pEI pSA l = .error err ∧
      ∃ r ∈ l, scanRowsOne pEI pSA r = .error err := by
  intro l
  induction l with
  | nil =>
    rintro ⟨r, hr, -⟩
    exact absurd hr (List.not_mem_nil r)
  | cons a rest ih =>
    rintro ⟨r, hr, e0, he0⟩
    rcases hoka : scanRowsOne pEI pSA a with ea | eva
    · exact ⟨ea, scanAll_cons_error hoka, a, List.mem_cons_self a rest, hoka⟩
    · have hne : r ≠ a := by
        intro he
        rw [he, hoka] at he0
        exact Except.noConfusion he0
      have hrrest : r ∈ rest := by
        rcases List.mem_cons.mp hr with h | h
        · exact absurd h hne
        · exact h
      obtain ⟨err, hserr, r2, hr2, hr2e⟩ := ih ⟨r, hrrest, e0, he0⟩
      exact ⟨err, scanAll_cons_ok_error hoka hserr, r2,
        List.mem_cons_of_mem a hr2, hr2e⟩

/-- Latest-event query (`lastEvent`): `SELECT ... ORDER BY timestamp
DESC LIMIT 1`; an empty table surfaces as `sql.ErrNoRows` from
`QueryRow` and is returned as "nil, nil", otherwise the single served
row is decoded by `scanRow` (same decode and wrapping as `scanRows`)
and any decode error is returned. -/
def lastEvent (pEI : String → Except String (List (String × String)))
    (pSA : String → Except String String) (rows : List Row) :
    Except DbErr (Option Event) :=
  match sortRowsDesc rows with
  | [] => .ok none
  | r :: _ =>
    match scanRowsOne pEI pSA r with
    | .error e => .error e
    | .ok e => .ok (some e)

/-- If the first row satisfying `Find`s SQL predicate in scan order
fails to decode, `findEvent` returns that decode error instead of
skipping the row. -/
theorem findEvent_error_of_first_candidate
    (pEI : String → Except String (List (String × String)))
    (pSA : String → Except String String) (mSA : String → String)
    (ev : Event) :
    ∀ rows : List Row, ∀ r0 err,
    rows.find? (sqlMatch mSA ev) = some r0 →
    scanRowsOne pEI pSA r0 = .error err →
    findEvent pEI pSA mSA ev rows = .error err := by
  intro rows
  induction rows with
  | nil =>
    intro r0 err hf _
    exact Option.noConfusion hf
  | cons a rest ih =>
    intro r0 err hf he
    cases hm : sqlMatch mSA ev a with
    | true =>
      rw [List.find?_cons_of_pos _ hm] at hf
      cases hf
      simp [findEvent, hm, he]
    | false =>
      rw [List.find?_cons_of_neg _ (by simp [hm])] at hf
      have hrest := ih r0 err hf he
      simp [findEvent, hm, hrest]

/-- C4: the codec decodes NULL, the empty string and the literal "null"
as absent without error; a non-empty value (other than "null") not
starting with a left brace fails as "invalid JSON"; a brace-led value is
handed to the JSON parser with parse failures surfaced; and a row whose
payload fails to decode makes the `Get`, `Find` or `Latest` call that
scans it fail with a wrapped "failed to unmarshal" error instead of
being skipped. -/
theorem unmarshalIfValid_spec {α : Type} (parse : String → Except String α)
    (pEI : String → Except String (List (String × String)))
    (pSA : String → Except String String) (mSA : String → String)
    (ev : Event) (rows : List Row) (since : Int) :
    unmarshalIfValid parse none = .ok none ∧
    unmarshalIfValid parse (some "") = .ok none ∧
    unmarshalIfValid parse (some "null") = .ok none ∧
    (∀ s, s ≠ "" → s ≠ "null" → startsWithBrace s = false →
      unmarshalIfValid parse (some s) = .error (.invalidJSON s)) ∧
    (∀ s, s ≠ "" → s ≠ "null" → startsWithBrace s = true →
      unmarshalIfValid parse (some s)
        = match parse s with
          | .ok v => .ok (some v)
          | .error m => .error (.parseFail m)) ∧
    ((∃ r ∈ rows, since < r.timestamp ∧
        ∃ e0, scanRowsOne pEI pSA r = .error e0) →
      ∃ field inner,
        getEvents pEI pSA rows since
          = .error (DbErr.wrapUnmarshal field inner)) ∧
    (∀ r0 err, rows.find? (sqlMatch mSA ev) = some r0 →
      scanRowsOne pEI pSA r0 = .error err →
      findEvent pEI pSA mSA ev rows = .error err ∧
      ∃ field inner, err = DbErr.wrapUnmarshal field inner) ∧
    (∀ r0 rest0 err, sortRowsDesc rows = r0 :: rest0 →
      scanRowsOne pEI pSA r0 = .error err →
      lastEvent pEI pSA rows = .error err ∧
      ∃ field inner, err = DbErr.wrapUnmarshal field inner) := by
  refine ⟨rfl, rfl, rfl, ?_, ?_, ?_, ?_, ?_⟩
  · intro s h1 h2 h3
    simp [unmarshalIfValid, string_length_zero_iff, h1, h2, h3]
  · intro s h1 h2 h3
    simp [unmarshalIfValid, string_length_zero_iff, h1, h2, h3]
  · rintro ⟨r, hr, hts, e0, he0⟩
    have hmem : r ∈ sortRowsDesc
        (rows.filter (fun r => decide (since < r.timestamp))) := by
      unfold sortRowsDesc
      exact (List.mem_insertionSort rowGE).mpr
        (List.mem_filter.mpr ⟨hr, by simpa using hts⟩)
    obtain ⟨err, hserr, r2, -, hr2e⟩ :=
      scanAll_error_of_mem pEI pSA _ ⟨r, hmem, e0, he0⟩
    obtain ⟨f, i, hfi⟩ := scanRowsOne_error_shape hr2e
    have hge : getEvents pEI pSA rows since = .error err := by
      simp [getEvents, hserr]
    exact ⟨f, i, hfi ▸ hge⟩
  · intro r0 err hf he
    exact ⟨findEvent_error_of_first_candidate pEI pSA mSA ev rows r0 err hf he,
      scanRowsOne_error_shape he⟩
  · intro r0 rest0 err hs he
    refine ⟨?_, scanRowsOne_error_shape he⟩
    simp [lastEvent, hs, he]

/-- C4 witness: a stored JSON array is rejected as invalid JSON, and a
bucket holding one row with an undecodable payload fails `Get`, `Find`
and `Latest` with a wrapped unmarshal error. -/
theorem unmarshalIfValid_spec_witness :
    unmarshalIfValid parseFailEI (some "[1]") = .error (.invalidJSON "[1]") ∧
    (∃ field inner,
      getEvents parseFailEI parseFailSA
          [⟨5, "n", "T", none, some "\x7bbad", none⟩] 0
        = .error (DbErr.wrapUnmarshal field inner)) ∧
    findEvent parseFailEI parseFailSA id eventW
        [⟨5, "n", "T", none, some "\x7bbad", none⟩]
      = .error (.wrapUnmarshal "extra info" (.parseFail "\x7bbad")) ∧
    lastEvent parseFailEI parseFailSA
        [⟨5, "n", "T", none, some "\x7bbad", none⟩]
      = .error (.wrapUnmarshal "extra info" (.parseFail "\x7bbad")) :=
  ⟨(unmarshalIfValid_spec parseFailEI parseFailEI parseFailSA id eventW
        [] 0).2.2.2.1
      "[1]" (by decide) (by decide) (by decide),
   (unmarshalIfValid_spec parseFailEI parseFailEI parseFailSA id eventW
      [⟨5, "n", "T", none, some "\x7bbad", none⟩] 0).2.2.2.2.2.1
      ⟨⟨5, "n", "T", none, some "\x7bbad", none⟩, by simp, by decide,
        .wrapUnmarshal "extra info" (.parseFail "\x7bbad"), rfl⟩,
   ((unmarshalIfValid_spec parseFailEI parseFailEI parseFailSA id eventW
      [⟨5, "n", "T", none, some "\x7bbad", none⟩] 0).2.2.2.2.2.2.1
      ⟨5, "n", "T", none, some "\x7bbad", none⟩
      (.wrapUnmarshal "extra info" (.parseFail "\x7bbad")) rfl rfl).1,
   ((unmarshalIfValid_spec parseFailEI parseFailEI parseFailSA id eventW
      [⟨5, "n", "T", none, some "\x7bbad", none⟩] 0).2.2.2.2.2.2.2
      ⟨5, "n", "T", none, some "\x7bbad", none⟩ []
      (.wrapUnmarshal "extra info" (.parseFail "\x7bbad")) rfl rfl).1⟩

/-- Reference predicate for the dedup lookup: a stored row is a match
when it satisfies the SQL predicate and its decoded form passes the
extra-info post-filter. -/
def decodeMatches (pEI : String → Except String (List (String × String)))
    (pSA : String → Except String String) (mSA : String → String)
    (ev : Event) (r : Row) : Bool :=
  sqlMatch mSA ev r &&
    (match scanRowsOne pEI pSA r with
     | .ok e => compareEvent e ev
     | .error _ => false)

/-- C1: provided every SQL-matched candidate row decodes, `Find` returns
the decoded form of the first stored row that matches the SQL predicate
(exact timestamp, name and type; message equality only for a non-empty
probe message; serialized suggested-actions equality only for a non-nil
probe value) and additionally passes the extra-info post-filter, and
returns nil with no error when no stored row satisfies all of this. -/
theorem findEvent_spec
    (pEI : String → Except String (List (String × String)))
    (pSA : String → Except String String) (mSA : String → String)
    (ev : Event) :
    ∀ rows : List Row,
    (∀ r ∈ rows, sqlMatch mSA ev r = true →
      ∃ e, scanRowsOne pEI pSA r = .ok e) →
    (rows.find? (decodeMatches pEI pSA mSA ev) = none →
      findEvent pEI pSA mSA ev rows = .ok none) ∧
    (∀ r0, rows.find? (decodeMatches pEI pSA mSA ev) = some r0 →
      ∃ e, scanRowsOne pEI pSA r0 = .ok e ∧ sqlMatch mSA ev r0 = true ∧
        compareEvent e ev = true ∧
        findEvent pEI pSA mSA ev rows = .ok (some e)) := by
  intro rows
  induction rows with
  | nil =>
    intro _
    exact ⟨fun _ => rfl, fun r0 h => absurd h (by simp)⟩
  | cons a rest ih =>
    intro hdec
    obtain ⟨ihn, ihs⟩ := ih
      (fun r hr => hdec r (List.mem_cons_of_mem a hr))
    cases hm : sqlMatch mSA ev a with
    | false =>
      have hdm : decodeMatches pEI pSA mSA ev a = false := by
        simp [decodeMatches, hm]
      have hfind : (a :: rest).find? (decodeMatches pEI pSA mSA ev)
          = rest.find? (decodeMatches pEI pSA mSA ev) :=
        List.find?_cons_of_neg _ (by simp [hdm])
      have hfe : findEvent pEI pSA mSA ev (a :: rest)
          = findEvent pEI pSA mSA ev rest := by
        simp [findEvent, hm]
      refine ⟨fun h => ?_, fun r0 h => ?_⟩
      · rw [hfe]
        exact ihn (by rwa [hfind] at h)
      · obtain ⟨e2, h1, h2, h3, h4⟩ := ihs r0 (by rwa [hfind] at h)
        exact ⟨e2, h1, h2, h3, by rw [hfe]; exact h4⟩
    | true =>
      obtain ⟨e, he⟩ := hdec a (List.mem_cons_self a rest) hm
      cases hc : compareEvent e ev with
      | true =>
        have hdm : decodeMatches pEI pSA mSA ev a = true := by
          simp [decodeMatches, hm, he, hc]
        have hfind : (a :: rest).find? (decodeMatches pEI pSA mSA ev)
            = some a :=
          List.find?_cons_of_pos _ hdm
        have hfe : findEvent pEI pSA mSA ev (a :: rest) = .ok (some e) := by
          simp [findEvent, hm, he, hc]
        refine ⟨fun h => ?_, fun r0 h => ?_⟩
        · rw [hfind] at h
          exact Option.noConfusion h
        · rw [hfind] at h
          cases h
          exact ⟨e, he, hm, hc, hfe⟩
      | false =>
        have hdm : decodeMatches pEI pSA mSA ev a = false := by
          simp [decodeMatches, hm, he, hc]
        have hfind : (a :: rest).find? (decodeMatches pEI pSA mSA ev)
            = rest.find? (decodeMatches pEI pSA mSA ev) :=
          List.find?_cons_of_neg _ (by simp [hdm])
        have hfe : findEvent pEI pSA mSA ev (a :: rest)
            = findEvent pEI pSA mSA ev rest := by
          simp [findEvent, hm, he, hc]
        refine ⟨fun h => ?_, fun r0 h => ?_⟩
        · rw [hfe]
          exact ihn (by rwa [hfind] at h)
        · obtain ⟨e2, h1, h2, h3, h4⟩ := ihs r0 (by rwa [hfind] at h)
          exact ⟨e2, h1, h2, h3, by rw [hfe]; exact h4⟩

/-- C1 witness: a probe with empty message and nil payloads finds the
row storing its own field values. -/
theorem findEvent_spec_witness :
    findEvent parseFailEI parseFailSA id eventW [rowW]
      = .ok (some eventW) := by
  obtain ⟨e, he, -, -, hf⟩ :=
    (findEvent_spec parseFailEI parseFailSA id eventW [rowW]
        (by
          intro r hr _
          rw [List.mem_singleton] at hr
          subst hr
          exact ⟨eventW, rfl⟩)).2 rowW (by rfl)
  have he2 : scanRowsOne parseFailEI parseFailSA rowW = .ok eventW := rfl
  rw [he2] at he
  cases he
  exact hf

/-- A second stored row sharing `rowW`s timestamp. -/
def rowW2 : Row := ⟨5, "m", "T", none, none, none⟩

/-- Decoded form of `rowW2`. -/
def eventW2 : Event := ⟨5, "m", "T", "", none, none⟩

/-- When every scanned row decodes, the scan loop returns the decoded
events in row order, with timestamps copied from the rows. -/
theorem scanAll_ok_of_all
    (pEI : String → Except String (List (String × String)))
    (pSA : String → Except String String) :
    ∀ l : List Row, (∀ r ∈ l, ∃ e, scanRowsOne pEI pSA r = .ok e) →
    ∃ evs, scanAll pEI pSA l = .ok evs ∧
      evs.map Event.time = l.map Row.timestamp ∧
      (∀ e, e ∈ evs ↔ ∃ r ∈ l, scanRowsOne pEI pSA r = .ok e) := by
  intro l
  induction l with
  | nil =>
    intro _
    exact ⟨[], rfl, rfl, by simp⟩
  | cons a rest ih =>
    intro hall
    obtain ⟨ea, hea⟩ := hall a (List.mem_cons_self a rest)
    obtain ⟨evs, hscan, hmap, hmem⟩ :=
      ih (fun r hr => hall r (List.mem_cons_of_mem a hr))
    refine ⟨ea :: evs, ?_, ?_, ?_⟩
    · simp [scanAll, hea, hscan]
    · simp [hmap, (scanRowsOne_ok_fields hea).1]
    · intro e
      simp only [List.mem_cons]
      constructor
      · rintro (rfl | h)
        · exact ⟨a, Or.inl rfl, hea⟩
        · obtain ⟨r, hr, hre⟩ := (hmem e).mp h
          exact ⟨r, Or.inr hr, hre⟩
      · rintro ⟨r, rfl | hr2, hre⟩
        · rw [hea] at hre
          injection hre with h3
          exact Or.inl h3.symm
        · exact Or.inr ((hmem e).mpr ⟨r, hr2, hre⟩)

/-- C3 counterexample: with two stored events sharing one timestamp the
range query returns both, and the returned collection is not strictly
descending in time. -/
theorem getEvents_not_strictly_descending :
    getEvents parseFailEI parseFailSA [rowW, rowW2] 0
      = .ok (some [eventW, eventW2]) ∧
    ¬ List.Sorted (fun a b : Event => b.time < a.time) [eventW, eventW2] := by
  refine ⟨rfl, ?_⟩
  intro h
  have h2 := List.rel_of_sorted_cons h eventW2 (by simp)
  simp [eventW, eventW2] at h2

/-- C3 (amended): provided every qualifying row decodes, `Get` returns
exactly the stored events with timestamp strictly greater than `since`
(nil — not an empty collection — when there are none), in descending
timestamp order, and in strictly descending order whenever the returned
timestamps are pairwise distinct. -/
theorem getEvents_spec
    (pEI : String → Except String (List (String × String)))
    (pSA : String → Except String String) (rows : List Row) (since : Int)
    (hdec : ∀ r ∈ rows, since < r.timestamp →
      ∃ e, scanRowsOne pEI pSA r = .ok e) :
    ∃ l : List Event,
      (l = [] → getEvents pEI pSA rows since = .ok none) ∧
      (l ≠ [] → getEvents pEI pSA rows since = .ok (some l)) ∧
      List.Perm (l.map Event.time)
        ((rows.filter (fun r => decide (since < r.timestamp))).map
          Row.timestamp) ∧
      (∀ e, e ∈ l ↔ ∃ r ∈ rows, since < r.timestamp ∧
        scanRowsOne pEI pSA r = .ok e) ∧
      (∀ e ∈ l, since < e.time) ∧
      (rows.filter (fun r => decide (since < r.timestamp)) = [] →
        getEvents pEI pSA rows since = .ok none) ∧
      List.Sorted (fun a b : Event => b.time ≤ a.time) l ∧
      ((l.map Event.time).Nodup →
        List.Sorted (fun a b : Event => b.time < a.time) l) := by
  have hall : ∀ r ∈ sortRowsDesc
      (rows.filter (fun r => decide (since < r.timestamp))),
      ∃ e, scanRowsOne pEI pSA r = .ok e := by
    intro r hr
    have hrf := (List.mem_insertionSort rowGE).mp hr
    have hsplit := List.mem_filter.mp hrf
    exact hdec r hsplit.1 (by simpa using hsplit.2)
  obtain ⟨evs, hscan, hmap, hmem⟩ := scanAll_ok_of_all pEI pSA _ hall
  have hmem2 : ∀ e, e ∈ evs ↔ ∃ r ∈ rows, since < r.timestamp ∧
      scanRowsOne pEI pSA r = .ok e := by
    intro e
    rw [hmem e]
    constructor
    · rintro ⟨r, hr, hre⟩
      have hrf := (List.mem_insertionSort rowGE).mp hr
      have hsplit := List.mem_filter.mp hrf
      exact ⟨r, hsplit.1, by simpa using hsplit.2, hre⟩
    · rintro ⟨r, hr, hts, hre⟩
      exact ⟨r, (List.mem_insertionSort rowGE).mpr
        (List.mem_filter.mpr ⟨hr, by simpa using hts⟩), hre⟩
  have hsort_s : List.Sorted rowGE (sortRowsDesc
      (rows.filter (fun r => decide (since < r.timestamp)))) :=
    List.sorted_insertionSort rowGE _
  have hpair_map : List.Pairwise (fun x y : Int => y ≤ x)
      (evs.map Event.time) := by
    rw [hmap]
    exact List.pairwise_map.mpr (hsort_s.imp (fun h => h))
  refine ⟨evs, ?_, ?_, ?_, hmem2, ?_, ?_, ?_, ?_⟩
  · intro h
    subst h
    simp [getEvents, hscan]
  · intro h
    simp [getEvents, hscan, h]
  · rw [hmap]
    exact (List.perm_insertionSort rowGE _).map Row.timestamp
  · intro e he
    obtain ⟨r, -, hts, hre⟩ := (hmem2 e).mp he
    rw [(scanRowsOne_ok_fields hre).1]
    exact hts
  · intro h
    have hevs : evs = [] := by
      have : evs.map Event.time = [] := by
        rw [hmap, h]
        rfl
      exact List.map_eq_nil_iff.mp this
    subst hevs
    simp [getEvents, hscan]
  · exact List.pairwise_map.mp hpair_map
  · intro hnd
    have hand := hpair_map.and hnd
    have hlt : List.Pairwise (fun x y : Int => y < x) (evs.map Event.time) :=
      hand.imp (fun h => lt_of_le_of_ne h.1 (fun q => h.2 q.symm))
    exact List.pairwise_map.mp hlt

/-- C3 witness: one qualifying stored row is returned as a singleton
collection. -/
theorem getEvents_spec_witness :
    getEvents parseFailEI parseFailSA [rowW] 0 = .ok (some [eventW]) := by
  have _h :=
    getEvents_spec parseFailEI parseFailSA [rowW] 0
      (by
        intro r hr _
        rw [List.mem_singleton] at hr
        subst hr
        exact ⟨eventW, rfl⟩)
  exact rfl

end Gpud
